import Mathlib

/-!
Verification of the time-series alignment and carry-forward expansion engine of
`nwb_project_analytics.codestats.GitCodeStats` (file `codestats.py`).

Dates are modelled as natural numbers (day ordinals): the source only ever
compares dates with `==`, `<` and `>`, so any linearly ordered carrier is
faithful.  All counts are natural numbers (cloc produces non-negative integer
counts).  Fallible list indexing in the Python source (an out-of-range access
raises `IndexError`) is modelled by `Option`-returning functions: a `none`
result corresponds to the Python code raising.
-/

/-- One cloc snapshot of a repository: the `date` together with the `SUM`
record of the cloc output, which holds exactly the keys
`blank`, `code`, `comment` and `nFiles` (source lines 303-309). -/
structure Snapshot where
  date : Nat
  blank : Nat
  code : Nat
  comment : Nat
  nFiles : Nat
  deriving DecidableEq

/-- The derived "sizes" metric: `np.sum` over all entries of the `SUM` record
other than `nFiles`, i.e. `blank + code + comment` (source lines 304-305). -/
def sizesOf (s : Snapshot) : Nat := s.blank + s.code + s.comment

/-- The pre-history scan of `compute_summary_stats` (source lines 330-333):
`for di, d in enumerate(curr_dates): if d > date_range[0]: curr_index = di - 1; break`.
`di` is the running enumeration index; when the loop completes without the
`break` firing, `curr_index` keeps its initial value `0`. -/
def scanBreak (d0 : Nat) : List Nat → Nat → Nat
  | [], _ => 0
  | d :: ds, di => if d0 < d then di - 1 else scanBreak d0 ds (di + 1)

/-- Result of the pre-history scan loop over the whole snapshot date list,
starting the enumeration at index 0.  (In the source this is only reached when
`date_range[0] > curr_dates[0]`, so the `di - 1` in `scanBreak` can never
underflow there.) -/
def scanStartIndex (dates : List Nat) (d0 : Nat) : Nat := scanBreak d0 dates 0

/-- Pre-history initialization of `compute_summary_stats` (source lines
312-338): determine the starting cursor `curr_index` and starting
"current value" for one metric.  `d0` is `date_range[0]`.  Returns `none`
when an index access would raise (`curr_dates[0]` on an empty snapshot
list). -/
def startState (snaps : List Snapshot) (m : Snapshot → Nat) (d0 : Nat) :
    Option (Nat × Nat) :=
  match snaps.head? with
  | none => none
  | some first =>
    if first.date < d0 then
      match snaps.getLast? with
      | none => none
      | some last =>
        let idx := if last.date < d0 then snaps.length - 1
                   else scanStartIndex (snaps.map Snapshot.date) d0
        match snaps.get? idx with
        | none => none
        | some s => some (idx, m s)
    else some (0, 0)

/-- The main carry-forward loop of `compute_summary_stats` (source lines
341-358) for one metric: for each date `d` of the remaining date range, if
`d == curr_dates[curr_index]` the current value is updated to the cursor
snapshot's metric and the cursor advances by one unless it already sits on
the last snapshot; in all cases the (possibly updated) current value is
appended. -/
def alignFrom (snaps : List Snapshot) (m : Snapshot → Nat) :
    Nat → Nat → List Nat → Option (List Nat)
  | _, _, [] => some []
  | i, v, d :: ds =>
    match snaps.get? i with
    | none => none
    | some s =>
      let v' := if d = s.date then m s else v
      let i' := if d = s.date ∧ i < snaps.length - 1 then i + 1 else i
      match alignFrom snaps m i' v' ds with
      | none => none
      | some rest => some (v' :: rest)

/-- Alignment of one repository's (ascending) snapshot list onto `dseq` for
one metric: pre-history initialization followed by the carry-forward loop
over the whole date range (source lines 312-358).  Mirrors the source's
evaluation order: `date_range[0]` is read before `curr_dates[0]`, so an empty
date range or an empty snapshot list both yield `none` (IndexError). -/
def align (snaps : List Snapshot) (m : Snapshot → Nat) (dseq : List Nat) :
    Option (List Nat) :=
  match dseq.head? with
  | none => none
  | some d0 =>
    match startState snaps m d0 with
    | none => none
    | some st => alignFrom snaps m st.1 st.2 dseq

/-- The five aligned columns of one repository as computed inside the per-repo
loop of `compute_summary_stats` (source lines 301-364). -/
structure RepoCols where
  name : String
  sizes : List Nat
  blanks : List Nat
  codes : List Nat
  comments : List Nat
  nfiles : List Nat
  deriving DecidableEq

/-- Per-repository body of the loop in `compute_summary_stats`: the raw cloc
entry list is newest-first and is reversed (`[::-1]`, source lines 303-309)
before alignment; the five metrics share identical cursor decisions (these
depend only on the dates), so aligning them one metric at a time is
equivalent to the source's single interleaved pass. -/
def repoColumns (dseq : List Nat) (kv : String × List Snapshot) : Option RepoCols :=
  let snaps := kv.2.reverse
  match align snaps sizesOf dseq, align snaps Snapshot.blank dseq,
        align snaps Snapshot.code dseq, align snaps Snapshot.comment dseq,
        align snaps Snapshot.nFiles dseq with
  | some es, some eb, some ec, some em, some en => some ⟨kv.1, es, eb, ec, em, en⟩
  | _, _, _, _, _ => none

/-- The `for k, v in self.cloc_stats.items()` loop of `compute_summary_stats`:
process every repository in order; any raising repository aborts the whole
computation (source lines 301-364). -/
def summaryColumns (dseq : List Nat) : List (String × List Snapshot) → Option (List RepoCols)
  | [] => some []
  | kv :: rest =>
    match repoColumns dseq kv, summaryColumns dseq rest with
    | some c, some cs => some (c :: cs)
    | _, _ => none

/-- A pandas DataFrame with a date row index and named numeric columns. -/
structure DFrame where
  index : List Nat
  cols : List (String × List Nat)
  deriving DecidableEq

/-- The five summary tables returned by `compute_summary_stats`
(source lines 366-382). -/
structure SummaryTables where
  sizes : DFrame
  blanks : DFrame
  codes : DFrame
  comments : DFrame
  nfiles : DFrame
  deriving DecidableEq

/-- `GitCodeStats.compute_summary_stats` (source lines 275-382): align every
repository onto `dseq` and assemble the five DataFrames, each indexed by the
date range.  Note that the source builds the `nfiles` frame from
`repo_codes_aligned` (source line 375:
`repo_nfiles_aligned_df = pd.DataFrame.from_dict(repo_codes_aligned)`),
so the `nfiles` table carries the codes columns. -/
def computeSummaryStats (clocStats : List (String × List Snapshot)) (dseq : List Nat) :
    Option SummaryTables :=
  match summaryColumns dseq clocStats with
  | none => none
  | some cols =>
    some { sizes := ⟨dseq, cols.map (fun c => (c.name, c.sizes))⟩
           blanks := ⟨dseq, cols.map (fun c => (c.name, c.blanks))⟩
           codes := ⟨dseq, cols.map (fun c => (c.name, c.codes))⟩
           comments := ⟨dseq, cols.map (fun c => (c.name, c.comments))⟩
           nfiles := ⟨dseq, cols.map (fun c => (c.name, c.codes))⟩ }

/-- One raw cloc entry as consumed by `compute_language_stats`: the date and
the per-language cloc mapping, each language mapped to its
`(blank, code, comment)` counts (the `nFiles` entry of a language record is
never read by `compute_language_stats`). -/
structure LangEntry where
  date : Nat
  cloc : List (String × (Nat × Nat × Nat))
  deriving DecidableEq

/-- Per-language value of one cloc entry (source lines 412-415):
`cloc_entry['cloc'][lang]` when present, else `{'blank': 0, 'code': 0,
'comment': 0}`; the recorded value is `blank + code + comment`. -/
def langValue (cloc : List (String × (Nat × Nat × Nat))) (lang : String) : Nat :=
  match cloc.lookup lang with
  | some v => v.1 + v.2.1 + v.2.2
  | none => 0

/-- Languages used in one repository (source lines 403-405): all language keys
appearing in any cloc entry, minus the ignored ones, deduplicated.
(`np.unique` additionally sorts the names alphabetically; the column order is
irrelevant to every per-language lookup, so we keep list order here.) -/
def languagesUsed (ignore : List String) (entries : List LangEntry) : List String :=
  ((entries.flatMap (fun e => e.cloc.map Prod.fst)).filter (fun l => l ∉ ignore)).dedup

/-- Per-repository body of `GitCodeStats.compute_language_stats` (source lines
401-417): one row per cloc entry, in the raw (newest-first) entry order, one
column per used language, each cell the entry's `blank + code + comment` for
that language with absent languages contributing 0. -/
def computeLanguageStatsRepo (ignore : List String) (entries : List LangEntry) : DFrame :=
  ⟨entries.map LangEntry.date,
   (languagesUsed ignore entries).map
     (fun lang => (lang, entries.map (fun e => langValue e.cloc lang)))⟩

/-- Zero out the values of a column whose row date satisfies `p`, keeping all
other values.  Rows are paired with the column values positionally, as pandas
aligns a column with the frame's row index. -/
def zeroBefore (p : Nat → Prop) [DecidablePred p] (index col : List Nat) : List Nat :=
  (index.zip col).map (fun dv => if p dv.1 then 0 else dv.2)

/-- Start-date truncation of one summary table for one repository
(source line 158: `summary_stats[k][repo_key][:repo_startdate] = 0`).
Label-based pandas slicing with `[:cutoff]` on an ascending DatetimeIndex is
inclusive of the endpoint, so every row with date less than or equal to the
cutoff is zeroed in the repository's column. -/
def truncColumn (cutoff : Nat) (repo : String) (t : DFrame) : DFrame :=
  ⟨t.index,
   t.cols.map (fun c =>
     if c.1 = repo then (c.1, zeroBefore (fun d => d ≤ cutoff) t.index c.2) else c)⟩

/-- Start-date truncation applied to all five summary tables for one
repository (source lines 155-158: the loop `for k in summary_stats.keys()`). -/
def applyStartDateTruncation (ts : SummaryTables) (repo : String) (cutoff : Nat) :
    SummaryTables :=
  ⟨truncColumn cutoff repo ts.sizes,
   truncColumn cutoff repo ts.blanks,
   truncColumn cutoff repo ts.codes,
   truncColumn cutoff repo ts.comments,
   truncColumn cutoff repo ts.nfiles⟩

/-- Start-date truncation of a repository's language table (source lines
160-161: `datemask = (index < repo_startdate); .loc[datemask] = 0`): every
row strictly before the cutoff is zeroed across all columns. -/
def truncLangTable (cutoff : Nat) (t : DFrame) : DFrame :=
  ⟨t.index,
   t.cols.map (fun c => (c.1, zeroBefore (fun d => d < cutoff) t.index c.2))⟩

/-- Scenario A snapshots: code counts 10, 20, 15 on days 1, 5, 10
(2020-01-01, 2020-01-05, 2020-01-10). -/
def snapsA : List Snapshot := [⟨1, 0, 10, 0, 0⟩, ⟨5, 0, 20, 0, 0⟩, ⟨10, 0, 15, 0, 0⟩]

/-- C9: aligning Scenario A's snapshots over the daily sequence day 1 .. day 12
(2020-01-01 .. 2020-01-12) yields exactly
[10,10,10,10,20,20,20,20,20,15,15,15] for the code metric. -/
theorem scenarioA_code_alignment :
    align snapsA Snapshot.code [1, 2, 3, 4, 5, 6, 7, 8, 9, 10, 11, 12] =
      some [10, 10, 10, 10, 20, 20, 20, 20, 20, 15, 15, 15] := by
  decide

/-- A single-snapshot repository whose code count (10) differs from its file
count (3), exposing which data the `nfiles` summary table is built from. -/
def snapNf : Snapshot := ⟨1, 0, 10, 0, 3⟩

/-- C1: at the concrete input with one repository "A" holding one snapshot with
code = 10 and nFiles = 3, aligned over the one-day range [1], the table
returned under the key `nfiles` holds the codes column [10] (source line 375
builds it from `repo_codes_aligned`), while the carry-forward alignment of the
`nFiles` metric over the same range is [3].  The `nfiles` table is therefore
not built from the aligned file counts, contradicting the claim. -/
theorem nfiles_table_built_from_codes :
    (computeSummaryStats [("A", [snapNf])] [1]).map SummaryTables.nfiles =
      some ⟨[1], [("A", [10])]⟩ ∧
    align [snapNf] Snapshot.nFiles [1] = some [3] := by
  constructor
  · rfl
  · rfl

/-- Ascending snapshots on days 1, 2, 3 with code counts 10, 20, 30. -/
def snapsSkip : List Snapshot := [⟨1, 0, 10, 0, 0⟩, ⟨2, 0, 20, 0, 0⟩, ⟨3, 0, 30, 0, 0⟩]

/-- C2 counterexample: the date sequence [1, 3] skips the snapshot dated day 2,
so the cursor never advances past it; at position 1 the sequence date 3
exactly equals the third snapshot's date, yet the aligned value is the
carried-forward 10, not that snapshot's code value 30.  The claim's
exact-match property fails when the sequence skips snapshot dates. -/
theorem exact_match_fails_when_dates_skipped :
    align snapsSkip Snapshot.code [1, 3] = some [10, 10] ∧
    (align snapsSkip Snapshot.code [1, 3]).bind (fun r => r.get? 1) ≠ some 30 := by
  decide

/-- C3 counterexample: aligning an empty snapshot list over the date sequence
[1, 2] fails (the source reads `curr_dates[0]` on line 326, raising
IndexError, modelled as `none`) instead of returning the claimed zero series
[0, 0]; `compute_summary_stats` propagates the failure. -/
theorem empty_history_raises :
    align ([] : List Snapshot) Snapshot.code [1, 2] = none ∧
    computeSummaryStats [("B", ([] : List Snapshot))] [1, 2] = none ∧
    (none : Option (List Nat)) ≠ some [0, 0] := by
  decide

/-- A one-column summary-tables value: dates [1, 2], repository "A" with
values [5, 7] in every category. -/
def tablesTr : SummaryTables :=
  ⟨⟨[1, 2], [("A", [5, 7])]⟩, ⟨[1, 2], [("A", [5, 7])]⟩, ⟨[1, 2], [("A", [5, 7])]⟩,
   ⟨[1, 2], [("A", [5, 7])]⟩, ⟨[1, 2], [("A", [5, 7])]⟩⟩

/-- C4: truncating repository "A" at cutoff day 2 zeroes the value at the row
whose date exactly equals the cutoff: pandas label slicing
`summary_stats[k][repo_key][:repo_startdate] = 0` (source line 158) includes
the endpoint, so the column becomes [0, 0], while the claim (and the source's
own comment "Set all LOC values prior to the given date to 0") requires the
value 7 at the cutoff date to be unchanged, i.e. [0, 7]. -/
theorem truncation_zeroes_cutoff_date :
    (applyStartDateTruncation tablesTr "A" 2).codes.cols = [("A", [0, 0])] ∧
    ([("A", [0, 0])] : List (String × List Nat)) ≠ [("A", [0, 7])] := by
  decide

/-- Language entries (newest first, as stored by `git_repo_stats`): the newer
entry (day 20) does not mention Python, the older entry (day 10) has Python
with blank 1, code 2, comment 3. -/
def langEntriesVanish : List LangEntry := [⟨20, []⟩, ⟨10, [("Python", (1, 2, 3))]⟩]

/-- C5 counterexample: Python appears with nonzero counts (sum 6) in the older
snapshot and is absent from the newer one; the Language Table records 0 at the
newer row (source lines 412-415 default an absent language to
blank = code = comment = 0), not the carried-forward value 6 the claim
requires: the column is [0, 6] (rows newest first), not [6, 6]. -/
theorem language_not_carried_forward :
    (computeLanguageStatsRepo [] langEntriesVanish).cols.lookup "Python" = some [0, 6] ∧
    (computeLanguageStatsRepo [] langEntriesVanish).cols.lookup "Python" ≠ some [6, 6] := by
  decide

/-- Ascending snapshots on days 1 and 5 with code counts 10 and 20. -/
def snapsPre : List Snapshot := [⟨1, 0, 10, 0, 0⟩, ⟨5, 0, 20, 0, 0⟩]

/-- C6: when `date_sequence[0]` (day 5) is later than the first snapshot's
date and exactly equals the last snapshot's date, the pre-history scan
(source lines 330-333) finds no snapshot date strictly greater than
`date_range[0]`, its loop completes without assigning, and the cursor is left
at index 0 with the first snapshot's value 10 — not at the greatest index 1
with date less than or equal to day 5 and value 20 as the claim requires.
The whole aligned series is stuck at 10. -/
theorem prehistory_scan_misses_last_snapshot :
    startState snapsPre Snapshot.code 5 = some (0, 10) ∧
    align snapsPre Snapshot.code [5, 6] = some [10, 10] := by
  decide

/-- Reapplying the per-column zeroing with the same predicate has no further
effect: a cell is either already 0 or its date fails the predicate. -/
theorem zeroBefore_idem (p : Nat → Prop) [DecidablePred p] :
    ∀ (index col : List Nat), zeroBefore p index (zeroBefore p index col) = zeroBefore p index col := by
  intro index
  induction index with
  | nil => intro col; rfl
  | cons d idx ih =>
    intro col
    cases col with
    | nil => rfl
    | cons v cs =>
      simp only [zeroBefore, List.zip_cons_cons, List.map_cons] at *
      by_cases hp : p d
      · simp [hp, ih cs]
      · simp [hp, ih cs]

/-- Truncating one summary table twice for the same repository and cutoff
equals truncating it once. -/
theorem truncColumn_idem (cutoff : Nat) (repo : String) (t : DFrame) :
    truncColumn cutoff repo (truncColumn cutoff repo t) = truncColumn cutoff repo t := by
  cases t with
  | mk index cols =>
    simp only [truncColumn, List.map_map]
    refine congrArg (DFrame.mk index) (List.map_congr_left ?_)
    intro c _
    by_cases hc : c.1 = repo
    · simp [Function.comp, hc, zeroBefore_idem]
    · simp [Function.comp, hc]

/-- C8: start-date truncation is idempotent: applying it twice with the same
repository and cutoff yields exactly the tables of a single application, both
for the five summary tables and for a repository's language table. -/
theorem start_date_truncation_idempotent :
    (∀ (ts : SummaryTables) (repo : String) (cutoff : Nat),
      applyStartDateTruncation (applyStartDateTruncation ts repo cutoff) repo cutoff =
        applyStartDateTruncation ts repo cutoff) ∧
    (∀ (t : DFrame) (cutoff : Nat),
      truncLangTable cutoff (truncLangTable cutoff t) = truncLangTable cutoff t) := by
  constructor
  · intro ts repo cutoff
    simp [applyStartDateTruncation, truncColumn_idem]
  · intro t cutoff
    cases t with
    | mk index cols =>
      simp [truncLangTable, List.map_map, Function.comp, zeroBefore_idem]

/-- Aligning any metric of an empty snapshot list fails for every date
sequence: either `date_range[0]` or `curr_dates[0]` raises IndexError
(source line 326). -/
theorem align_nil_eq_none (m : Snapshot → Nat) (dseq : List Nat) :
    align ([] : List Snapshot) m dseq = none := by
  cases dseq with
  | nil => rfl
  | cons d ds => rfl

/-- C3 amended: a repository with an empty snapshot list makes alignment fail
(the model returns `none`, corresponding to the IndexError raised at
`curr_dates[0]`, source line 326), and `compute_summary_stats` fails whenever
any repository's snapshot list is empty, rather than producing a zero
series. -/
theorem empty_history_always_raises :
    (∀ (m : Snapshot → Nat) (dseq : List Nat), align ([] : List Snapshot) m dseq = none) ∧
    (∀ (clocStats : List (String × List Snapshot)) (dseq : List Nat) (k : String),
      (k, ([] : List Snapshot)) ∈ clocStats → computeSummaryStats clocStats dseq = none) := by
  refine ⟨align_nil_eq_none, ?_⟩
  intro clocStats dseq k hmem
  have hnone : ∀ cs : List (String × List Snapshot), (k, ([] : List Snapshot)) ∈ cs →
      summaryColumns dseq cs = none := by
    intro cs
    induction cs with
    | nil => intro h; cases h
    | cons kv rest ih =>
      intro h
      rcases List.mem_cons.mp h with heq | htail
      · subst heq
        have : repoColumns dseq (k, ([] : List Snapshot)) = none := by
          simp [repoColumns, align_nil_eq_none]
        simp only [summaryColumns, this]
      · cases hr : repoColumns dseq kv with
        | none => simp [summaryColumns, hr]
        | some c => simp [summaryColumns, hr, ih htail]
  simp [computeSummaryStats, hnone clocStats hmem]

/-- Witness for C3 amended: the concrete repository "B" with no snapshots
makes `compute_summary_stats` fail over the date sequence [1, 2]. -/
theorem empty_history_always_raises_witness :
    computeSummaryStats [("B", ([] : List Snapshot))] [1, 2] = none :=
  empty_history_always_raises.2 [("B", ([] : List Snapshot))] [1, 2] "B" (by simp)

/-- Looking up a key in an association list built by pairing each element of a
list with a function of itself returns that function of the key, provided the
key occurs in the list. -/
theorem lookup_map_pair {β : Type} (f : String → β) :
    ∀ (L : List String) (lang : String), lang ∈ L →
      (L.map (fun l => (l, f l))).lookup lang = some (f lang) := by
  intro L
  induction L with
  | nil => intro lang h; cases h
  | cons a L ih =>
    intro lang h
    by_cases ha : lang = a
    · subst ha
      simp [List.lookup]
    · rcases List.mem_cons.mp h with heq | htail
      · exact absurd heq ha
      · simp only [List.map_cons, List.lookup]
        have : (lang == a) = false := beq_false_of_ne ha
        simp [this, ih lang htail]

/-- C5 amended: in the Language Table, a language that is among the
repository's used languages but absent from the cloc mapping of a given
snapshot records the value 0 at that snapshot's row: each cell is computed
from its own row's snapshot with an absent language defaulting to
blank = code = comment = 0 (source lines 412-415); no previous observation is
carried forward. -/
theorem absent_language_records_zero (ignore : List String) (entries : List LangEntry)
    (i : Nat) (e : LangEntry) (lang : String)
    (he : entries.get? i = some e)
    (hmem : lang ∈ languagesUsed ignore entries)
    (habs : e.cloc.lookup lang = none) :
    ((computeLanguageStatsRepo ignore entries).cols.lookup lang).bind
      (fun col => col.get? i) = some 0 := by
  have hcol : (computeLanguageStatsRepo ignore entries).cols.lookup lang =
      some (entries.map (fun e => langValue e.cloc lang)) := by
    simpa [computeLanguageStatsRepo] using
      lookup_map_pair (fun l => entries.map (fun e => langValue e.cloc l))
        (languagesUsed ignore entries) lang hmem
  rw [hcol]
  show (entries.map (fun e => langValue e.cloc lang)).get? i = some 0
  have hmap : (entries.map (fun e => langValue e.cloc lang)).get? i =
      (entries.get? i).map (fun e => langValue e.cloc lang) := by
    simp [List.get?_eq_getElem?]
  rw [hmap, he]
  simp [langValue, habs]

/-- Witness for C5 amended: at the concrete entries of
`langEntriesVanish`, Python is a used language, is absent from the newest
entry (row 0), and the table records 0 there. -/
theorem absent_language_records_zero_witness :
    ((computeLanguageStatsRepo [] langEntriesVanish).cols.lookup "Python").bind
      (fun col => col.get? 0) = some 0 :=
  absent_language_records_zero [] langEntriesVanish 0 ⟨20, []⟩ "Python" rfl (by decide) rfl

/-- The carry-forward loop emits exactly one value per date of the remaining
date range. -/
theorem alignFrom_length (snaps : List Snapshot) (m : Snapshot → Nat) :
    ∀ (ds : List Nat) (i v : Nat) (r : List Nat),
      alignFrom snaps m i v ds = some r → r.length = ds.length := by
  intro ds
  induction ds with
  | nil =>
    intro i v r h
    simp only [alignFrom] at h
    cases h
    rfl
  | cons d ds ih =>
    intro i v r h
    simp only [alignFrom] at h
    split at h
    · exact absurd h (by simp)
    · split at h
      · exact absurd h (by simp)
      · rename_i rest hr
        injection h with h
        subst h
        simp [ih _ _ _ hr]

/-- A successful alignment has exactly one value per date of the date
sequence. -/
theorem align_length (snaps : List Snapshot) (m : Snapshot → Nat)
    (dseq : List Nat) (r : List Nat) (h : align snaps m dseq = some r) :
    r.length = dseq.length := by
  unfold align at h
  split at h
  · exact absurd h (by simp)
  · split at h
    · exact absurd h (by simp)
    · rename_i st hst
      exact alignFrom_length snaps m dseq st.1 st.2 r h

/-- A successful per-repository column computation keeps the repository key
and gives every one of the five columns one value per date. -/
theorem repoColumns_spec (dseq : List Nat) (kv : String × List Snapshot)
    (c : RepoCols) (h : repoColumns dseq kv = some c) :
    c.name = kv.1 ∧ c.sizes.length = dseq.length ∧ c.blanks.length = dseq.length ∧
      c.codes.length = dseq.length ∧ c.comments.length = dseq.length ∧
      c.nfiles.length = dseq.length := by
  unfold repoColumns at h
  dsimp only at h
  split at h
  · rename_i es eb ec em en h1 h2 h3 h4 h5
    injection h with h
    subst h
    exact ⟨rfl, align_length _ _ _ _ h1, align_length _ _ _ _ h2,
      align_length _ _ _ _ h3, align_length _ _ _ _ h4, align_length _ _ _ _ h5⟩
  · exact absurd h (by simp)

/-- A successful run of the per-repository loop produces one column record per
repository, in order, with the repositories' keys and full-length columns. -/
theorem summaryColumns_spec (dseq : List Nat) :
    ∀ (cs : List (String × List Snapshot)) (cols : List RepoCols),
      summaryColumns dseq cs = some cols →
      cols.map RepoCols.name = cs.map Prod.fst ∧
      ∀ c ∈ cols, c.sizes.length = dseq.length ∧ c.blanks.length = dseq.length ∧
        c.codes.length = dseq.length ∧ c.comments.length = dseq.length ∧
        c.nfiles.length = dseq.length := by
  intro cs
  induction cs with
  | nil =>
    intro cols h
    cases h
    exact ⟨rfl, by intro c hc; cases hc⟩
  | cons kv rest ih =>
    intro cols h
    simp only [summaryColumns] at h
    cases h1 : repoColumns dseq kv with
    | none => rw [h1] at h; cases h
    | some c =>
      rw [h1] at h
      cases h2 : summaryColumns dseq rest with
      | none => rw [h2] at h; cases h
      | some cs' =>
        rw [h2] at h
        cases h
        obtain ⟨hname, hlen⟩ := ih cs' h2
        obtain ⟨hn, hs, hb, hc, hm, hf⟩ := repoColumns_spec dseq kv c h1
        refine ⟨by simp [hn, hname], ?_⟩
        intro c' hc'
        rcases List.mem_cons.mp hc' with heq | htail
        · subst heq; exact ⟨hs, hb, hc, hm, hf⟩
        · exact hlen c' htail

/-- C7: whenever `compute_summary_stats` returns, all five summary tables have
row index exactly the date sequence, all five carry identical column keys,
namely the repository keys of `cloc_stats` in order, and every column holds
one value per date of the sequence. -/
theorem summary_tables_shape (clocStats : List (String × List Snapshot))
    (dseq : List Nat) (ts : SummaryTables)
    (h : computeSummaryStats clocStats dseq = some ts) :
    (ts.sizes.index = dseq ∧ ts.blanks.index = dseq ∧ ts.codes.index = dseq ∧
      ts.comments.index = dseq ∧ ts.nfiles.index = dseq) ∧
    (ts.sizes.cols.map Prod.fst = clocStats.map Prod.fst ∧
      ts.blanks.cols.map Prod.fst = clocStats.map Prod.fst ∧
      ts.codes.cols.map Prod.fst = clocStats.map Prod.fst ∧
      ts.comments.cols.map Prod.fst = clocStats.map Prod.fst ∧
      ts.nfiles.cols.map Prod.fst = clocStats.map Prod.fst) ∧
    ((∀ c ∈ ts.sizes.cols, c.2.length = dseq.length) ∧
      (∀ c ∈ ts.blanks.cols, c.2.length = dseq.length) ∧
      (∀ c ∈ ts.codes.cols, c.2.length = dseq.length) ∧
      (∀ c ∈ ts.comments.cols, c.2.length = dseq.length) ∧
      (∀ c ∈ ts.nfiles.cols, c.2.length = dseq.length)) := by
  unfold computeSummaryStats at h
  cases hc : summaryColumns dseq clocStats with
  | none => rw [hc] at h; cases h
  | some cols =>
    rw [hc] at h
    cases h
    obtain ⟨hname, hlen⟩ := summaryColumns_spec dseq clocStats cols hc
    have hkeys : ∀ f : RepoCols → List Nat,
        (cols.map (fun c => (c.name, f c))).map Prod.fst = clocStats.map Prod.fst := by
      intro f
      rw [← hname, List.map_map]
      rfl
    have hlens : ∀ f : RepoCols → List Nat, (∀ c ∈ cols, (f c).length = dseq.length) →
        ∀ c' ∈ cols.map (fun c => (c.name, f c)), c'.2.length = dseq.length := by
      intro f hf c' hc'
      obtain ⟨c, hcmem, rfl⟩ := List.mem_map.mp hc'
      exact hf c hcmem
    refine ⟨⟨rfl, rfl, rfl, rfl, rfl⟩,
      ⟨hkeys _, hkeys _, hkeys _, hkeys _, hkeys _⟩,
      ⟨hlens _ ?_, hlens _ ?_, hlens _ ?_, hlens _ ?_, hlens _ ?_⟩⟩ <;>
    · intro c hcmem
      have := hlen c hcmem
      tauto

/-- Concrete input for the shape-invariant witness: one repository with one
snapshot. -/
def clocOne : List (String × List Snapshot) := [("A", [⟨1, 1, 2, 3, 4⟩])]

/-- The summary tables computed from `clocOne` over the date sequence [1, 2]. -/
def tablesOne : SummaryTables :=
  ⟨⟨[1, 2], [("A", [6, 6])]⟩, ⟨[1, 2], [("A", [1, 1])]⟩, ⟨[1, 2], [("A", [2, 2])]⟩,
   ⟨[1, 2], [("A", [3, 3])]⟩, ⟨[1, 2], [("A", [2, 2])]⟩⟩

/-- Witness for C7: at the concrete input `clocOne` over the date sequence
[1, 2] the computation succeeds and all five returned tables are indexed by
the date sequence. -/
theorem summary_tables_shape_witness :
    tablesOne.sizes.index = [1, 2] ∧ tablesOne.blanks.index = [1, 2] ∧
      tablesOne.codes.index = [1, 2] ∧ tablesOne.comments.index = [1, 2] ∧
      tablesOne.nfiles.index = [1, 2] :=
  (summary_tables_shape clocOne [1, 2] tablesOne (by decide)).1

/-- The pre-history scan returns an index below any bound that dominates the
enumeration start plus the number of remaining dates. -/
theorem scanBreak_lt (d0 : Nat) :
    ∀ (ds : List Nat) (di bound : Nat), di + ds.length ≤ bound → 0 < bound →
      scanBreak d0 ds di < bound := by
  intro ds
  induction ds with
  | nil => intro di bound _ hpos; simpa [scanBreak] using hpos
  | cons d ds ih =>
    intro di bound hle hpos
    simp only [scanBreak]
    by_cases hlt : d0 < d
    · simp only [hlt, if_true]
      simp only [List.length_cons] at hle
      omega
    · simp only [hlt, if_false]
      exact ih (di + 1) bound (by simp only [List.length_cons] at hle; omega) hpos

/-- On a non-empty snapshot list the pre-history scan yields an in-range
start index. -/
theorem scanStartIndex_lt (dates : List Nat) (d0 : Nat) (hne : dates ≠ []) :
    scanStartIndex dates d0 < dates.length := by
  have hlen : 0 < dates.length := List.length_pos.mpr hne
  exact scanBreak_lt d0 dates 0 dates.length (by omega) hlen

/-- On a non-empty snapshot list the pre-history initialization always
succeeds, with an in-range cursor. -/
theorem startState_total (snaps : List Snapshot) (m : Snapshot → Nat) (d0 : Nat)
    (hne : snaps ≠ []) :
    ∃ idx val, startState snaps m d0 = some (idx, val) ∧ idx < snaps.length := by
  have hlen : 0 < snaps.length := List.length_pos.mpr hne
  cases hhd : snaps.head? with
  | none => exact absurd (List.head?_eq_none_iff.mp hhd) hne
  | some first =>
    by_cases hpre : first.date < d0
    · cases hlast : snaps.getLast? with
      | none => exact absurd (List.getLast?_eq_none_iff.mp hlast) hne
      | some last =>
        set idx := if last.date < d0 then snaps.length - 1
                   else scanStartIndex (snaps.map Snapshot.date) d0 with hidx
        have hidxlt : idx < snaps.length := by
          rw [hidx]
          by_cases hl : last.date < d0
          · simp only [hl, if_true]; omega
          · simp only [hl, if_false]
            have := scanStartIndex_lt (snaps.map Snapshot.date) d0
              (by simpa using hne)
            simpa using this
        cases hget : snaps.get? idx with
        | none =>
          rw [List.get?_eq_getElem?, List.getElem?_eq_none_iff] at hget
          omega
        | some s =>
          refine ⟨idx, m s, ?_, hidxlt⟩
          simp only [startState, hhd, hpre, if_true, hlast, ← hidx, hget]
    · refine ⟨0, 0, ?_, hlen⟩
      simp only [startState, hhd, hpre, if_false]

/-- The main carry-forward loop never leaves the snapshot list's bounds: from
any in-range cursor it succeeds and emits one value per date.  The cursor
advance is guarded by `curr_index < len(curr_dates) - 1`, which keeps every
subsequent access in range. -/
theorem alignFrom_total (snaps : List Snapshot) (m : Snapshot → Nat) :
    ∀ (ds : List Nat) (i v : Nat), i < snaps.length →
      ∃ r, alignFrom snaps m i v ds = some r ∧ r.length = ds.length := by
  intro ds
  induction ds with
  | nil => intro i v _; exact ⟨[], rfl, rfl⟩
  | cons d ds ih =>
    intro i v hi
    cases hget : snaps.get? i with
    | none =>
      rw [List.get?_eq_getElem?, List.getElem?_eq_none_iff] at hget
      omega
    | some s =>
      have hi' : (if d = s.date ∧ i < snaps.length - 1 then i + 1 else i) < snaps.length := by
        by_cases hc : d = s.date ∧ i < snaps.length - 1
        · rw [if_pos hc]; omega
        · rw [if_neg hc]; exact hi
      obtain ⟨rest, hrest, hlen⟩ := ih _ (if d = s.date then m s else v) hi'
      refine ⟨(if d = s.date then m s else v) :: rest, ?_, by simp [hlen]⟩
      simp only [alignFrom, hget, hrest]

/-- C10: for a non-empty snapshot list with sorted unique (strictly ascending)
dates and a non-empty ascending date sequence, every list access of the
alignment stays in range: the alignment succeeds (no `none`, i.e. no
IndexError) and returns one value per date. -/
theorem alignment_accesses_in_range (snaps : List Snapshot) (m : Snapshot → Nat)
    (dseq : List Nat) (hsne : snaps ≠ []) (hdne : dseq ≠ [])
    (_hsorted : (snaps.map Snapshot.date).Pairwise (· < ·))
    (_hdsorted : dseq.Pairwise (· < ·)) :
    ∃ res, align snaps m dseq = some res ∧ res.length = dseq.length := by
  cases dseq with
  | nil => exact absurd rfl hdne
  | cons d0 ds =>
    obtain ⟨idx, val, hstart, hidxlt⟩ := startState_total snaps m d0 hsne
    obtain ⟨res, hres, hlen⟩ := alignFrom_total snaps m (d0 :: ds) idx val hidxlt
    refine ⟨res, ?_, hlen⟩
    simp only [align, List.head?_cons, hstart, hres]

/-- Witness for C10: the concrete Scenario A snapshots aligned over the
ascending sequence [1, 2, 3] succeed with three values. -/
theorem alignment_accesses_in_range_witness :
    ∃ res, align snapsA Snapshot.code [1, 2, 3] = some res ∧ res.length = 3 :=
  alignment_accesses_in_range snapsA Snapshot.code [1, 2, 3]
    (by decide) (by decide) (by decide) (by decide)

/-- With strictly ascending snapshot dates, an earlier index holds a strictly
earlier date. -/
theorem snap_date_lt (snaps : List Snapshot)
    (hsorted : (snaps.map Snapshot.date).Pairwise (· < ·)) :
    ∀ (k j : Nat) (sk sj : Snapshot), k < j →
      snaps.get? k = some sk → snaps.get? j = some sj → sk.date < sj.date := by
  intro k j sk sj hkj hk hj
  rw [List.get?_eq_getElem?] at hk hj
  obtain ⟨hjlen, hjv⟩ := List.getElem?_eq_some_iff.mp hj
  obtain ⟨hklen, hkv⟩ := List.getElem?_eq_some_iff.mp hk
  have := List.pairwise_iff_getElem.mp hsorted k j
    (by simpa using hklen) (by simpa using hjlen) hkj
  simpa [hkv, hjv] using this

/-- With strictly ascending snapshot dates, a strictly earlier date sits at a
strictly earlier index. -/
theorem snap_idx_lt (snaps : List Snapshot)
    (hsorted : (snaps.map Snapshot.date).Pairwise (· < ·)) :
    ∀ (k j : Nat) (sk sj : Snapshot), snaps.get? k = some sk →
      snaps.get? j = some sj → sk.date < sj.date → k < j := by
  intro k j sk sj hk hj hlt
  by_contra hle
  push_neg at hle
  rcases Nat.lt_or_ge j k with hjk | hkj
  · have := snap_date_lt snaps hsorted j k sj sk hjk hj hk
    omega
  · have hjk : j = k := by omega
    subst hjk
    rw [hk] at hj
    injection hj with hj
    rw [hj] at hlt
    omega

/-- The key invariant of the carry-forward loop: if the target snapshot `sj`
lies at or after the cursor, its date appears at position `p` of the
remaining dates, and every snapshot from the cursor onward whose date
precedes `sj.date` has its date among the remaining dates (no skipped
snapshot), then the emitted value at position `p` is `sj`'s metric. -/
theorem alignFrom_exact (snaps : List Snapshot) (m : Snapshot → Nat)
    (hsorted : (snaps.map Snapshot.date).Pairwise (· < ·)) (j : Nat) (sj : Snapshot)
    (hj : snaps.get? j = some sj) :
    ∀ (ds : List Nat) (p i v : Nat) (res : List Nat),
      ds.Pairwise (· < ·) →
      i ≤ j →
      ds.get? p = some sj.date →
      (∀ k sk, i ≤ k → snaps.get? k = some sk → sk.date < sj.date → sk.date ∈ ds) →
      alignFrom snaps m i v ds = some res →
      res.get? p = some (m sj) := by
  have hjlen : j < snaps.length := by
    rw [List.get?_eq_getElem?] at hj
    exact (List.getElem?_eq_some_iff.mp hj).1
  intro ds
  induction ds with
  | nil => intro p i v res _ _ hp _ _; simp at hp
  | cons d ds ih =>
    intro p i v res hpw hij hp hcov halign
    simp only [alignFrom] at halign
    split at halign
    · exact absurd halign (by simp)
    · rename_i s hs
      split at halign
      · exact absurd halign (by simp)
      · rename_i rest hr
        injection halign with halign
        subst halign
        cases p with
        | zero =>
          have hd : d = sj.date := by simpa using hp
          have hij_eq : i = j := by
            by_contra hne
            have hlt : i < j := lt_of_le_of_ne hij hne
            have hdlt : s.date < sj.date := snap_date_lt snaps hsorted i j s sj hlt hs hj
            have hmem : s.date ∈ d :: ds := hcov i s le_rfl hs hdlt
            rcases List.mem_cons.mp hmem with heq | htl
            · omega
            · have : d < s.date := (List.pairwise_cons.mp hpw).1 _ htl
              omega
          subst hij_eq
          rw [hs] at hj
          injection hj with hssj
          have hds : d = s.date := by rw [hssj]; exact hd
          simp [hds, hssj]
        | succ p' =>
          have hp' : ds.get? p' = some sj.date := by simpa using hp
          have hmem_sj : sj.date ∈ ds := List.get?_mem hp'
          have hd_lt : d < sj.date := (List.pairwise_cons.mp hpw).1 _ hmem_sj
          have hpw' : ds.Pairwise (· < ·) := (List.pairwise_cons.mp hpw).2
          simp only [List.get?_cons_succ]
          by_cases hmatch : d = s.date
          · have hsd_lt : s.date < sj.date := hmatch ▸ hd_lt
            have hij_lt : i < j := snap_idx_lt snaps hsorted i j s sj hs hj hsd_lt
            have hadv : i < snaps.length - 1 := by omega
            rw [if_pos ⟨hmatch, hadv⟩] at hr
            refine ih p' (i + 1) _ rest hpw' (by omega) hp' ?_ hr
            intro k sk hik hk hklt
            have hmem := hcov k sk (by omega) hk hklt
            rcases List.mem_cons.mp hmem with heq | htl
            · exfalso
              have : s.date < sk.date := snap_date_lt snaps hsorted i k s sk (by omega) hs hk
              omega
            · exact htl
          · have hnc : ¬ (d = s.date ∧ i < snaps.length - 1) := by tauto
            rw [if_neg hnc] at hr
            refine ih p' i _ rest hpw' hij hp' ?_ hr
            intro k sk hik hk hklt
            have hmem := hcov k sk hik hk hklt
            rcases List.mem_cons.mp hmem with heq | htl
            · exfalso
              rcases eq_or_lt_of_le hik with heqik | hltik
              · subst heqik
                rw [hs] at hk
                injection hk with hk
                rw [← hk] at heq
                exact hmatch heq.symm
              · have h1 : s.date < sk.date := snap_date_lt snaps hsorted i k s sk hltik hs hk
                have h2 : s.date < sj.date := by omega
                have hmem2 := hcov i s le_rfl hs h2
                rcases List.mem_cons.mp hmem2 with heq2 | htl2
                · omega
                · have : d < s.date := (List.pairwise_cons.mp hpw).1 _ htl2
                  omega
            · exact htl

/-- C2 amended: exact-match holds under no-skip conditions.  For snapshots
sorted strictly ascending and a strictly ascending date sequence whose first
date is no later than the first snapshot's date, if position `p` of the
sequence holds exactly the date of snapshot `j` and every snapshot date
earlier than that date occurs in the sequence, then the aligned series has
snapshot `j`'s metric value at position `p`.  (The original claim's further
cases — a sequence starting strictly between two snapshot dates, or skipping
a snapshot date — fail, see the counterexample.) -/
theorem exact_match_aligned (snaps : List Snapshot) (m : Snapshot → Nat)
    (dseq : List Nat) (d0 : Nat) (j p : Nat) (s0 sj : Snapshot)
    (hsorted : (snaps.map Snapshot.date).Pairwise (· < ·))
    (hdsorted : dseq.Pairwise (· < ·))
    (hd0 : dseq.head? = some d0)
    (hs0 : snaps.get? 0 = some s0)
    (hstart : d0 ≤ s0.date)
    (hj : snaps.get? j = some sj)
    (hp : dseq.get? p = some sj.date)
    (hcov : ∀ s ∈ snaps, s.date < sj.date → s.date ∈ dseq) :
    ∃ res, align snaps m dseq = some res ∧ res.get? p = some (m sj) := by
  cases dseq with
  | nil => simp at hd0
  | cons dh ds =>
    have hd0' : dh = d0 := by simpa using hd0
    cases snaps with
    | nil => simp at hs0
    | cons sh rest =>
      have hs0' : sh = s0 := by simpa using hs0
      have hnotpre : ¬ sh.date < dh := by rw [hd0', hs0']; omega
      have hstate : startState (sh :: rest) m dh = some (0, 0) := by
        simp only [startState, List.head?_cons, if_neg hnotpre]
      obtain ⟨res, hres, _⟩ := alignFrom_total (sh :: rest) m (dh :: ds) 0 0
        (by simp)
      refine ⟨res, ?_, ?_⟩
      · simp only [align, List.head?_cons, hstate, hres]
      · refine alignFrom_exact (sh :: rest) m hsorted j sj hj (dh :: ds) p 0 0 res
          hdsorted (Nat.zero_le j) hp ?_ hres
        intro k sk _ hk hklt
        exact hcov sk (List.get?_mem hk) hklt

/-- Witness for C2 amended: snapshots on days 1 and 5 (code 10 and 20),
sequence [1, 3, 5]: day 5 at position 2 is snapshot 1's date, every earlier
snapshot date (day 1) occurs in the sequence, and the aligned value at
position 2 is 20. -/
theorem exact_match_aligned_witness :
    ∃ res, align snapsPre Snapshot.code [1, 3, 5] = some res ∧
      res.get? 2 = some 20 :=
  exact_match_aligned snapsPre Snapshot.code [1, 3, 5] 1 1 2 ⟨1, 0, 10, 0, 0⟩
    ⟨5, 0, 20, 0, 0⟩ (by decide) (by decide) rfl rfl (by decide) rfl rfl
    (by
      intro s hs hlt
      fin_cases hs <;> simp_all)
